import Mathlib

/-!
Shallow embedding of the `gestao` shift-scheduling and payroll engine
(models.py, admin.py, views.py) and proofs about its specification.

Conventions of the embedding:
* Django `DecimalField` values are rationals (`ℚ`), exact fixed-point arithmetic.
* `TimeField` values are minutes since midnight (`Nat`), matching the
  `hour * 60 + minute` conversion the layout code performs.
* `DateTimeField` timestamps are abstract `Nat` instants.
* Foreign keys are embedded records (the joins the code performs via the ORM);
  a `Client` reference is its id (`Option Nat`, `None` = null client).
* Query sets are Lean lists; ORM `filter(...)` is `List.filter`.
-/

namespace Ptl

/-- Employee row: `models.Employee` (id, name, optional contract rate). -/
structure Employee where
  id : Nat
  name : String
  contract_hourly_rate : Option ℚ
deriving DecidableEq, Repr

/-- Property `Employee.has_contract`: the contract rate is present. -/
def Employee.has_contract (e : Employee) : Bool :=
  e.contract_hourly_rate.isSome

/-- WorkBlock row: `models.WorkBlock`, all persistent fields. -/
structure WorkBlock where
  name : String
  localization : String
  client : Option Nat
  start_time : Nat
  end_time : Nat
  day_of_month : Nat
  month : Nat
  year : Nat
  archived : Bool
  duration : ℚ
  hourly_value : ℚ
  constant : Bool
deriving DecidableEq, Repr

/-- Assignment row: `models.EmployeeWorkAssignment`, with the employee and
work-block foreign keys embedded. -/
structure EmployeeWorkAssignment where
  employee : Employee
  work_block : WorkBlock
  duration : ℚ
  is_completed : Bool
  completed_date : Option Nat
  receives_payment : Bool
  hourly_rate_override : Option ℚ
deriving DecidableEq, Repr

/-- `EmployeeWorkAssignment.get_employee_hourly_rate`: override rate if set,
else the employee's contract rate if `has_contract`, else 0. -/
def EmployeeWorkAssignment.get_employee_hourly_rate
    (a : EmployeeWorkAssignment) : ℚ :=
  match a.hourly_rate_override with
  | some r => r
  | none =>
    match a.employee.contract_hourly_rate with
    | some c => c
    | none => 0

/-- `EmployeeWorkAssignment.get_employee_payment`: 0 when the assignment does
not receive payment, otherwise duration times the resolved hourly rate. -/
def EmployeeWorkAssignment.get_employee_payment
    (a : EmployeeWorkAssignment) : ℚ :=
  if !a.receives_payment then 0
  else a.duration * a.get_employee_hourly_rate

/-- `EmployeeWorkAssignment.get_client_cost`: duration times the block's
billed-to-client hourly value. -/
def EmployeeWorkAssignment.get_client_cost
    (a : EmployeeWorkAssignment) : ℚ :=
  a.duration * a.work_block.hourly_value

/-- Bonus/penalty category of `models.BonusPenalty.type`. -/
inductive BPType where
  | bonus
  | penalty
deriving DecidableEq, Repr

/-- BonusPenalty row: `models.BonusPenalty` (employee FK kept as id). -/
structure BonusPenalty where
  employee_id : Nat
  type : BPType
  amount : ℚ
  month : Nat
  year : Nat
deriving DecidableEq, Repr

/-- `BonusPenalty.signed_amount`: minus the absolute amount for a penalty,
plus the absolute amount otherwise. -/
def BonusPenalty.signed_amount (bp : BonusPenalty) : ℚ :=
  if bp.type = BPType.penalty then -(abs bp.amount) else abs bp.amount

/-!
Statistics aggregation: the per-employee slice of `views.admin_statistics`
and of `views.export_employee_csv`.  The assignment table is a list; the ORM
filters on employee, block year/month, non-archived block, and completion
become `List.filter` over the embedded rows.
-/

/-- Filter of `admin_statistics`: this employee's completed assignments on
non-archived blocks of the given month (`is_completed=True` branch). -/
def completed_assignments (asgs : List EmployeeWorkAssignment)
    (emp_id year month : Nat) : List EmployeeWorkAssignment :=
  asgs.filter (fun a =>
    a.employee.id == emp_id && a.work_block.year == year &&
    a.work_block.month == month && !a.work_block.archived && a.is_completed)

/-- Filter of `admin_statistics`: ALL of this employee's assignments on
non-archived blocks of the given month (used for expected hours). -/
def all_assignments (asgs : List EmployeeWorkAssignment)
    (emp_id year month : Nat) : List EmployeeWorkAssignment :=
  asgs.filter (fun a =>
    a.employee.id == emp_id && a.work_block.year == year &&
    a.work_block.month == month && !a.work_block.archived)

/-- `total_hours_worked`: sum of durations over completed assignments. -/
def total_hours_worked (asgs : List EmployeeWorkAssignment)
    (emp_id year month : Nat) : ℚ :=
  ((completed_assignments asgs emp_id year month).map
    (fun a => a.duration)).sum

/-- `total_value_earned` in `admin_statistics`: sum of
`get_employee_payment` over completed assignments. -/
def total_value_earned (asgs : List EmployeeWorkAssignment)
    (emp_id year month : Nat) : ℚ :=
  ((completed_assignments asgs emp_id year month).map
    (fun a => a.get_employee_payment)).sum

/-- `bonus_penalty_total`: sum of `signed_amount` over the employee's
BonusPenalty rows of the same month and year. -/
def bonus_penalty_total (bps : List BonusPenalty)
    (emp_id year month : Nat) : ℚ :=
  ((bps.filter (fun bp =>
      bp.employee_id == emp_id && bp.year == year && bp.month == month)).map
    (fun bp => bp.signed_amount)).sum

/-- `final_value_earned` in `admin_statistics`: value earned plus the
bonus/penalty adjustment. -/
def final_value_earned (asgs : List EmployeeWorkAssignment)
    (bps : List BonusPenalty) (emp_id year month : Nat) : ℚ :=
  total_value_earned asgs emp_id year month +
    bonus_penalty_total bps emp_id year month

/-- `expected_hours`: sum of durations over ALL assignments of the month. -/
def expected_hours (asgs : List EmployeeWorkAssignment)
    (emp_id year month : Nat) : ℚ :=
  ((all_assignments asgs emp_id year month).map (fun a => a.duration)).sum

/-- `total_value_earned` as computed by `export_employee_csv` (line 793) and
`export_combined_csv` (line 947): duration times the BLOCK hourly value,
summed over completed assignments. -/
def csv_total_value_earned (asgs : List EmployeeWorkAssignment)
    (emp_id year month : Nat) : ℚ :=
  ((completed_assignments asgs emp_id year month).map
    (fun a => a.duration * a.work_block.hourly_value)).sum

/-- Per-client slice of `admin_statistics`: `total_value` is the sum of
`get_client_cost` over completed assignments on that client's non-archived
blocks of the month. -/
def client_total_value (asgs : List EmployeeWorkAssignment)
    (client : Option Nat) (year month : Nat) : ℚ :=
  ((asgs.filter (fun a =>
      a.work_block.client == client && a.work_block.year == year &&
      a.work_block.month == month && !a.work_block.archived &&
      a.is_completed)).map (fun a => a.get_client_cost)).sum

/-!
Completion-state mutation paths.
-/

/-- `views.toggle_completion` (lines 365..371): flip `is_completed`, and set
`completed_date` to the current instant when completing, to `None` when
un-completing. -/
def toggle_completion (a : EmployeeWorkAssignment) (now : Nat) :
    EmployeeWorkAssignment :=
  let c := !a.is_completed
  { a with is_completed := c, completed_date := if c then some now else none }

/-- `views.api_edit_work_block` assignment re-creation (lines 1215..1222):
the new row takes `is_completed` and the payroll fields from the request
payload; `completed_date` is not among the fields passed to `create`, so it
stays at the model default `None`. -/
def api_create_assignment (employee : Employee) (work_block : WorkBlock)
    (duration : ℚ) (is_completed : Bool) (receives_payment : Bool)
    (hourly_rate_override : Option ℚ) : EmployeeWorkAssignment :=
  { employee := employee, work_block := work_block, duration := duration,
    is_completed := is_completed, completed_date := none,
    receives_payment := receives_payment,
    hourly_rate_override := hourly_rate_override }

/-!
Recurrence expansion: `admin.WorkBlockAdmin.save_related` for a newly
created constant block.  Calendar helpers mirror `calendar.monthrange`
(last day of month) and `datetime.weekday` (Monday = 0, proleptic
Gregorian).
-/

/-- Gregorian leap-year rule. -/
def isLeap (y : Nat) : Bool :=
  (y % 4 == 0 && y % 100 != 0) || y % 400 == 0

/-- Number of days of month `m` in year `y` (second component of
`calendar.monthrange`). -/
def daysInMonth (y m : Nat) : Nat :=
  if m == 2 then (if isLeap y then 29 else 28)
  else if m == 4 || m == 6 || m == 9 || m == 11 then 30
  else 31

/-- Days in the months of year `y` strictly before month `m`. -/
def daysBeforeMonth (y m : Nat) : Nat :=
  ((List.range (m - 1)).map (fun i => daysInMonth y (i + 1))).sum

/-- Days in the years strictly before year `y`. -/
def daysBeforeYear (y : Nat) : Nat :=
  (y - 1) * 365 + (y - 1) / 4 - (y - 1) / 100 + (y - 1) / 400

/-- Proleptic-Gregorian ordinal of a date (1 for 0001-01-01). -/
def ordinalDay (y m d : Nat) : Nat :=
  daysBeforeYear y + daysBeforeMonth y m + d

/-- `datetime.weekday()`: Monday = 0, ..., Sunday = 6. -/
def pyWeekday (y m d : Nat) : Nat :=
  (ordinalDay y m d + 6) % 7

/-- Python `range(a, b, 7)` as a list: the arithmetic progression
`a, a + 7, a + 14, ...` of all members below `b`. -/
def pyRange7 (a b : Nat) : List Nat :=
  (List.range ((b - a + 6) / 7)).map (fun i => a + 7 * i)

/-- Existence filter of `save_related` (lines 39..49): a stored block matches
the template `obj` at candidate day `day` when name, localization, client,
month, year, start and end time agree, its day is `day`, and it is constant. -/
def matchesTemplate (obj : WorkBlock) (day : Nat) (b : WorkBlock) : Bool :=
  b.name == obj.name && b.day_of_month == day &&
  b.localization == obj.localization && b.client == obj.client &&
  b.month == obj.month && b.year == obj.year &&
  b.start_time == obj.start_time && b.end_time == obj.end_time &&
  b.constant

/-- `WorkBlock.objects.filter(...).exists()` over the stored blocks. -/
def existsMatch (blocks : List WorkBlock) (obj : WorkBlock) (day : Nat) :
    Bool :=
  blocks.any (matchesTemplate obj day)

/-- `WorkBlock.objects.create(...)` of `save_related` (lines 51..64): every
field of the template is copied, only `day_of_month` is replaced. -/
def cloneBlock (obj : WorkBlock) (day : Nat) : WorkBlock :=
  { obj with day_of_month := day }

/-- Assignment cloning of `save_related` (lines 66..73): employee, duration,
payment flag and rate override are copied; `is_completed` and
`completed_date` are not passed, so they take the model defaults
(`False`, `None`). -/
def cloneAssignment (a : EmployeeWorkAssignment) (new_block : WorkBlock) :
    EmployeeWorkAssignment :=
  { employee := a.employee, work_block := new_block, duration := a.duration,
    is_completed := false, completed_date := none,
    receives_payment := a.receives_payment,
    hourly_rate_override := a.hourly_rate_override }

/-- `EmployeeWorkAssignment.objects.filter(work_block=obj)`. -/
def templateAssignments (asgs : List EmployeeWorkAssignment)
    (obj : WorkBlock) : List EmployeeWorkAssignment :=
  asgs.filter (fun a => a.work_block == obj)

/-- Loop body of `save_related`: for one candidate `day`, skip when the
weekday guard fails or a matching block already exists (the stored table is
the initial one plus the blocks created so far), otherwise create the cloned
block and clone the template's assignments onto it. -/
def expandStep (db_blocks : List WorkBlock)
    (db_asgs : List EmployeeWorkAssignment) (obj : WorkBlock)
    (weekday last_day : Nat)
    (acc : List WorkBlock × List EmployeeWorkAssignment) (day : Nat) :
    List WorkBlock × List EmployeeWorkAssignment :=
  if pyWeekday obj.year obj.month obj.day_of_month == weekday &&
      day ≤ last_day then
    if existsMatch (db_blocks ++ acc.1) obj day then acc
    else
      let new_block := cloneBlock obj day
      (acc.1 ++ [new_block],
       acc.2 ++ (templateAssignments db_asgs obj).map
         (fun a => cloneAssignment a new_block))
  else acc

/-- `save_related` for a newly created block `obj`: when the block is
constant, walk `range(day_of_month + 7, last_day + 1, 7)` creating the
missing occurrences; returns the created blocks and created assignments.
A non-constant block triggers no expansion. -/
def save_related (db_blocks : List WorkBlock)
    (db_asgs : List EmployeeWorkAssignment) (obj : WorkBlock) :
    List WorkBlock × List EmployeeWorkAssignment :=
  if obj.constant then
    let weekday := pyWeekday obj.year obj.month obj.day_of_month
    let last_day := daysInMonth obj.year obj.month
    (pyRange7 (obj.day_of_month + 7) (last_day + 1)).foldl
      (expandStep db_blocks db_asgs obj weekday last_day) ([], [])
  else ([], [])

/-!
Overlap layout engine: the cluster-building loop of `views.index`
(lines 70..106).  Times are already minutes (`hour * 60 + minute`).
-/

/-- `blocks_overlap` (lines 70..77): open-boundary interval intersection. -/
def blocks_overlap (block1 block2 : WorkBlock) : Bool :=
  !(block1.end_time ≤ block2.start_time || block2.end_time ≤ block1.start_time)

/-- The membership test of line 92: does `b` overlap any member of the
group? -/
def overlapsAny (b : WorkBlock) (g : List WorkBlock) : Bool :=
  g.any (fun x => blocks_overlap b x)

/-- Body of the grouping loop (lines 88..106): find the groups the block
overlaps; none — start a new singleton group at the end; exactly one —
append the block to that group in place; several — pop them in descending
index order, extend `[block]` with each popped group, and append the merged
group at the end. -/
def addBlock (groups : List (List WorkBlock)) (b : WorkBlock) :
    List (List WorkBlock) :=
  match groups.filter (fun g => overlapsAny b g) with
  | [] => groups ++ [[b]]
  | [_] => groups.map (fun g => if overlapsAny b g then g ++ [b] else g)
  | hits =>
    groups.filter (fun g => !overlapsAny b g) ++ [b :: hits.reverse.flatten]

/-- The full grouping pass over a day's block list. -/
def buildClusters (blocks : List WorkBlock) : List (List WorkBlock) :=
  blocks.foldl addBlock []

/-- Strict `(start_time, end_time)` lexicographic order used as sort key. -/
def blockKeyLt (a b : WorkBlock) : Bool :=
  a.start_time < b.start_time ||
    (a.start_time == b.start_time && a.end_time < b.end_time)

/-- Stable insertion for the sort of line 84. -/
def insertBlock (x : WorkBlock) : List WorkBlock → List WorkBlock
  | [] => [x]
  | y :: ys => if blockKeyLt x y then x :: y :: ys else y :: insertBlock x ys

/-- Stable sort by `(start_time, end_time)` (line 84). -/
def sortBlocks (l : List WorkBlock) : List WorkBlock :=
  l.foldl (fun acc x => insertBlock x acc) []

/-- Two blocks land in the same overlap cluster of a grouping. -/
def sameCluster (groups : List (List WorkBlock)) (x y : WorkBlock) : Prop :=
  ∃ g ∈ groups, x ∈ g ∧ y ∈ g

instance (groups : List (List WorkBlock)) (x y : WorkBlock) :
    Decidable (sameCluster groups x y) :=
  List.decidableBEx _ groups

/-- One overlap edge inside the block multiset `s`. -/
def touches (s : List WorkBlock) (a b : WorkBlock) : Prop :=
  b ∈ s ∧ blocks_overlap a b = true

/-- Connectivity in the overlap graph over the blocks of `s`. -/
def Conn (s : List WorkBlock) (x y : WorkBlock) : Prop :=
  x ∈ s ∧ Relation.ReflTransGen (touches s) x y

/-- Membership in the group that `addBlock` would build for `b`: the block
itself together with every member of a group it overlaps. -/
def mergedMem (groups : List (List WorkBlock)) (b x : WorkBlock) : Prop :=
  x = b ∨ ∃ g ∈ groups, overlapsAny b g = true ∧ x ∈ g

/-- Invariant of the grouping loop after the blocks `processed` have been
handled: the groups cover exactly `processed`, every group is
overlap-connected, and every group is closed under overlap edges. -/
structure ClusterInv (processed : List WorkBlock)
    (groups : List (List WorkBlock)) : Prop where
  mem_iff : ∀ x, (∃ g ∈ groups, x ∈ g) ↔ x ∈ processed
  conn : ∀ g ∈ groups, ∀ x ∈ g, ∀ y ∈ g,
    Relation.ReflTransGen (touches processed) x y
  closed : ∀ g ∈ groups, ∀ x ∈ g, ∀ y, y ∈ processed →
    blocks_overlap x y = true → y ∈ g

/-!
Concrete sample data used by counterexamples and witnesses.
-/

/-- Employee without a contract ("Ana" of the end-to-end scenario). -/
def ana : Employee := { id := 1, name := "Ana", contract_hourly_rate := none }

/-- Employee under contract at 15 per hour. -/
def rui : Employee := { id := 2, name := "Rui", contract_hourly_rate := some 15 }

/-- A non-archived block of June 2025 for client 1, billed at 20 per hour. -/
def acmeBlock : WorkBlock :=
  { name := "Acme", localization := "HQ", client := some 1, start_time := 540,
    end_time := 750, day_of_month := 5, month := 6, year := 2025,
    archived := false, duration := 7/2, hourly_value := 20, constant := false }

/-- Assignment with rate override 12.50 for a contract employee. -/
def wOverride : EmployeeWorkAssignment :=
  { employee := rui, work_block := acmeBlock, duration := 2,
    is_completed := false, completed_date := none, receives_payment := true,
    hourly_rate_override := some (25/2) }

/-- Assignment without override for a contract employee. -/
def wContract : EmployeeWorkAssignment :=
  { employee := rui, work_block := acmeBlock, duration := 2,
    is_completed := false, completed_date := none, receives_payment := true,
    hourly_rate_override := none }

/-- Assignment without override for an employee without contract. -/
def wNone : EmployeeWorkAssignment :=
  { employee := ana, work_block := acmeBlock, duration := 2,
    is_completed := false, completed_date := none, receives_payment := true,
    hourly_rate_override := none }

/-- Assignment opted out of payment, with a rate override set. -/
def wNoPay : EmployeeWorkAssignment :=
  { employee := ana, work_block := acmeBlock, duration := 2,
    is_completed := false, completed_date := none, receives_payment := false,
    hourly_rate_override := some 10 }

/-- Ana's completed 3.5-hour assignment (override 10) of the end-to-end
scenario. -/
def anaAsg : EmployeeWorkAssignment :=
  { employee := ana, work_block := acmeBlock, duration := 7/2,
    is_completed := true, completed_date := some 0, receives_payment := true,
    hourly_rate_override := some 10 }

/-- Penalty of 15 for Ana in June 2025. -/
def anaPenalty : BonusPenalty :=
  { employee_id := 1, type := BPType.penalty, amount := 15, month := 6,
    year := 2025 }

/-- Constant template on day 3 of January 2025 (a 31-day month). -/
def tmpl : WorkBlock :=
  { name := "Acme", localization := "HQ", client := some 1, start_time := 540,
    end_time := 750, day_of_month := 3, month := 1, year := 2025,
    archived := false, duration := 2, hourly_value := 20, constant := true }

/-- Ana's assignment on the template, already marked completed. -/
def anaAsgT : EmployeeWorkAssignment :=
  { employee := ana, work_block := tmpl, duration := 2,
    is_completed := true, completed_date := some 7, receives_payment := true,
    hourly_rate_override := some 10 }

/-- The four expanded occurrences of `tmpl`, as a pre-existing store. -/
def db4 : List WorkBlock :=
  [cloneBlock tmpl 10, cloneBlock tmpl 17, cloneBlock tmpl 24,
   cloneBlock tmpl 31]

/-- Block from 01:00 to 02:00 (minutes 60 to 120). -/
def cA : WorkBlock :=
  { name := "A", localization := "", client := none, start_time := 60,
    end_time := 120, day_of_month := 5, month := 6, year := 2025,
    archived := false, duration := 1, hourly_value := 0, constant := false }

/-- Block from 02:00 to 03:00, back-to-back after `cA`. -/
def cB : WorkBlock :=
  { name := "B", localization := "", client := none, start_time := 120,
    end_time := 180, day_of_month := 5, month := 6, year := 2025,
    archived := false, duration := 1, hourly_value := 0, constant := false }

/-- Bridging block from 01:00 to 03:00, overlapping both `cA` and `cB`. -/
def cC : WorkBlock :=
  { name := "C", localization := "", client := none, start_time := 60,
    end_time := 180, day_of_month := 5, month := 6, year := 2025,
    archived := false, duration := 2, hourly_value := 0, constant := false }

/-!
Theorems.
-/

/-- C1: the effective hourly pay rate is resolved first-match-wins: the
assignment's override if set, else the employee's contract rate if present,
else zero; the block's billing rate (`hourly_value`) never influences it.
Concretely, override 12.50 with contract 15 gives 12.50, no override with
contract 15 gives 15, neither gives 0. -/
theorem C1_effective_rate_resolution :
    (∀ (a : EmployeeWorkAssignment) (r : ℚ), a.hourly_rate_override = some r →
      a.get_employee_hourly_rate = r) ∧
    (∀ (a : EmployeeWorkAssignment) (c : ℚ), a.hourly_rate_override = none →
      a.employee.contract_hourly_rate = some c →
      a.get_employee_hourly_rate = c) ∧
    (∀ a : EmployeeWorkAssignment, a.hourly_rate_override = none →
      a.employee.contract_hourly_rate = none →
      a.get_employee_hourly_rate = 0) ∧
    (∀ (a : EmployeeWorkAssignment) (v : ℚ),
      EmployeeWorkAssignment.get_employee_hourly_rate
        { a with work_block := { a.work_block with hourly_value := v } } =
      a.get_employee_hourly_rate) := by
  refine ⟨?_, ?_, ?_, ?_⟩
  · intro a r h
    simp [EmployeeWorkAssignment.get_employee_hourly_rate, h]
  · intro a c h1 h2
    simp [EmployeeWorkAssignment.get_employee_hourly_rate, h1, h2]
  · intro a h1 h2
    simp [EmployeeWorkAssignment.get_employee_hourly_rate, h1, h2]
  · intro a v
    rfl

/-- Witness for C1 at the three concrete scenarios of the claim. -/
theorem C1_effective_rate_resolution_witness :
    wOverride.get_employee_hourly_rate = 25/2 ∧
    wContract.get_employee_hourly_rate = 15 ∧
    wNone.get_employee_hourly_rate = 0 :=
  ⟨C1_effective_rate_resolution.1 wOverride (25/2) rfl,
   C1_effective_rate_resolution.2.1 wContract 15 rfl rfl,
   C1_effective_rate_resolution.2.2.1 wNone rfl rfl⟩

/-- C2: employee payment is 0 whenever `receives_payment` is false and is
duration times the effective rate otherwise, while client cost is always
duration times the block's `hourly_value`, unaffected by `receives_payment`
and by any rate override. -/
theorem C2_payment_and_cost :
    (∀ a : EmployeeWorkAssignment, a.receives_payment = false →
      a.get_employee_payment = 0) ∧
    (∀ a : EmployeeWorkAssignment, a.receives_payment = true →
      a.get_employee_payment = a.duration * a.get_employee_hourly_rate) ∧
    (∀ a : EmployeeWorkAssignment,
      a.get_client_cost = a.duration * a.work_block.hourly_value) ∧
    (∀ (a : EmployeeWorkAssignment) (rp : Bool) (ov : Option ℚ),
      EmployeeWorkAssignment.get_client_cost
        { a with receives_payment := rp, hourly_rate_override := ov } =
      a.get_client_cost) := by
  refine ⟨?_, ?_, ?_, ?_⟩
  · intro a h
    simp [EmployeeWorkAssignment.get_employee_payment, h]
  · intro a h
    simp [EmployeeWorkAssignment.get_employee_payment, h]
  · intro a
    rfl
  · intro a rp ov
    rfl

/-- Witness for C2: a concrete opted-out assignment is paid 0 even with an
override rate set, and payment follows duration times rate when opted in. -/
theorem C2_payment_and_cost_witness :
    wNoPay.get_employee_payment = 0 ∧
    wContract.get_employee_payment =
      wContract.duration * wContract.get_employee_hourly_rate ∧
    wNoPay.get_client_cost = wNoPay.duration * wNoPay.work_block.hourly_value :=
  ⟨C2_payment_and_cost.1 wNoPay rfl,
   C2_payment_and_cost.2.1 wContract rfl,
   C2_payment_and_cost.2.2.1 wNoPay⟩

/-- Counterexample to C3: on the claim's own end-to-end scenario (one
completed 3.5h assignment with override 10 on a block billed at 20), the
`admin_statistics` path reports value earned 35, but the CSV export path
computes 70 — duration times the block's billing rate — so the stated
formula does not hold for every output path. -/
theorem C3_monthly_report_counterexample :
    total_value_earned [anaAsg] 1 2025 6 = 35 ∧
    csv_total_value_earned [anaAsg] 1 2025 6 = 70 ∧
    csv_total_value_earned [anaAsg] 1 2025 6 ≠
      total_value_earned [anaAsg] 1 2025 6 := by
  refine ⟨?_, ?_, ?_⟩ <;>
    norm_num [total_value_earned, csv_total_value_earned,
      completed_assignments, anaAsg, acmeBlock, ana,
      EmployeeWorkAssignment.get_employee_payment,
      EmployeeWorkAssignment.get_employee_hourly_rate]

/-- C3 (amended): in `admin_statistics`, valueEarned is the sum of
`get_employee_payment` over the employee's completed assignments on
non-archived blocks of the month, finalValueEarned adds the month's signed
bonus/penalty amounts, and the end-to-end scenario yields employee payment
35, client cost 70 and final value 20; the CSV export, however, computes the
employee's value earned as duration times the block's billing rate. -/
theorem C3_monthly_report_amended :
    (∀ (asgs : List EmployeeWorkAssignment) (e y m : Nat),
      total_value_earned asgs e y m =
        ((completed_assignments asgs e y m).map
          (fun a => a.get_employee_payment)).sum) ∧
    (∀ (asgs : List EmployeeWorkAssignment) (bps : List BonusPenalty)
      (e y m : Nat),
      final_value_earned asgs bps e y m =
        total_value_earned asgs e y m + bonus_penalty_total bps e y m) ∧
    total_value_earned [anaAsg] 1 2025 6 = 35 ∧
    client_total_value [anaAsg] (some 1) 2025 6 = 70 ∧
    final_value_earned [anaAsg] [anaPenalty] 1 2025 6 = 20 ∧
    (∀ (asgs : List EmployeeWorkAssignment) (e y m : Nat),
      csv_total_value_earned asgs e y m =
        ((completed_assignments asgs e y m).map
          (fun a => a.duration * a.work_block.hourly_value)).sum) := by
  refine ⟨fun asgs e y m => rfl, fun asgs bps e y m => rfl, ?_, ?_, ?_,
    fun asgs e y m => rfl⟩ <;>
    norm_num [total_value_earned, client_total_value, final_value_earned,
      bonus_penalty_total, completed_assignments, anaAsg, acmeBlock, ana,
      anaPenalty, BonusPenalty.signed_amount,
      EmployeeWorkAssignment.get_employee_payment,
      EmployeeWorkAssignment.get_client_cost,
      EmployeeWorkAssignment.get_employee_hourly_rate]

/-- C9 (amended): `toggle_completion` keeps the completion flag and the
timestamp in lock-step — after a toggle, `is_completed` holds iff
`completed_date` is set, completing stores the current instant and
un-completing clears it; but an assignment recreated through
`api_edit_work_block` takes `is_completed` from the payload while its
`completed_date` is always `None`. -/
theorem C9_completion_amended :
    (∀ (a : EmployeeWorkAssignment) (now : Nat),
      (toggle_completion a now).is_completed = true ↔
        ((toggle_completion a now).completed_date).isSome = true) ∧
    (∀ (a : EmployeeWorkAssignment) (now : Nat),
      (toggle_completion a now).completed_date =
        if a.is_completed then none else some now) ∧
    (∀ (e : Employee) (wb : WorkBlock) (d : ℚ) (c rp : Bool)
      (ov : Option ℚ),
      (api_create_assignment e wb d c rp ov).completed_date = none) := by
  refine ⟨?_, ?_, fun e wb d c rp ov => rfl⟩
  · intro a now
    cases h : a.is_completed <;> simp [toggle_completion, h]
  · intro a now
    cases h : a.is_completed <;> simp [toggle_completion, h]

/-- Counterexample to C9: an assignment created through the
`api_edit_work_block` path with `is_completed = true` in the payload has
`is_completed` true while `completed_date` is `None`, so the flag and the
timestamp are not set together on that endpoint. -/
theorem C9_completion_counterexample :
    (api_create_assignment ana acmeBlock 2 true true none).is_completed =
      true ∧
    (api_create_assignment ana acmeBlock 2 true true none).completed_date =
      none :=
  ⟨rfl, rfl⟩

/-- Completed-assignment filter is the completion filter applied after the
month filter. -/
theorem completed_eq_filter (asgs : List EmployeeWorkAssignment)
    (e y m : Nat) :
    completed_assignments asgs e y m =
      (all_assignments asgs e y m).filter (fun a => a.is_completed) := by
  unfold completed_assignments all_assignments
  rw [List.filter_filter]
  exact List.filter_congr (fun x _ => by rw [Bool.and_comm])

/-- A mapped sum splits along a Boolean filter. -/
theorem sum_filter_split {α : Type} (l : List α) (q : α → Bool)
    (f : α → ℚ) :
    (l.map f).sum =
      ((l.filter q).map f).sum + ((l.filter (fun a => !q a)).map f).sum := by
  induction l with
  | nil => simp
  | cons a t ih =>
    cases hq : q a <;> simp [hq, ih] <;> ring

/-- C8: expected hours sum the durations of ALL of the employee's month
assignments — they decompose as hours worked (completed) plus the pending
assignments' durations — and therefore, for nonnegative durations, expected
hours are at least the hours worked. -/
theorem C8_expected_hours_all_assignments
    (asgs : List EmployeeWorkAssignment) (e y m : Nat) :
    expected_hours asgs e y m =
      total_hours_worked asgs e y m +
        (((all_assignments asgs e y m).filter (fun a => !a.is_completed)).map
          (fun a => a.duration)).sum ∧
    ((∀ a ∈ asgs, 0 ≤ a.duration) →
      total_hours_worked asgs e y m ≤ expected_hours asgs e y m) := by
  have hsplit :
      expected_hours asgs e y m =
        total_hours_worked asgs e y m +
          (((all_assignments asgs e y m).filter
            (fun a => !a.is_completed)).map (fun a => a.duration)).sum := by
    unfold expected_hours total_hours_worked
    rw [completed_eq_filter]
    exact sum_filter_split (all_assignments asgs e y m)
      (fun a => a.is_completed) (fun a => a.duration)
  refine ⟨hsplit, fun hpos => ?_⟩
  rw [hsplit]
  have hnn : 0 ≤ (((all_assignments asgs e y m).filter
      (fun a => !a.is_completed)).map (fun a => a.duration)).sum := by
    apply List.sum_nonneg
    intro x hx
    obtain ⟨a, ha, rfl⟩ := List.mem_map.mp hx
    have ha2 : a ∈ all_assignments asgs e y m := List.mem_of_mem_filter ha
    have ha3 : a ∈ asgs := List.mem_of_mem_filter ha2
    exact hpos a ha3
  linarith

/-- Witness for C8 on a one-assignment month with nonnegative duration. -/
theorem C8_expected_hours_all_assignments_witness :
    total_hours_worked [anaAsgT] 1 2025 1 ≤ expected_hours [anaAsgT] 1 2025 1 :=
  (C8_expected_hours_all_assignments [anaAsgT] 1 2025 1).2 (by decide)

/-- Every assignment the expansion loop appends satisfies the given check if
the accumulator does and clones always do. -/
theorem expand_fold_all_uncompleted (db_blocks : List WorkBlock)
    (db_asgs : List EmployeeWorkAssignment) (obj : WorkBlock)
    (wd last : Nat) (days : List Nat)
    (acc : List WorkBlock × List EmployeeWorkAssignment)
    (hacc : (acc.2.all
      (fun a => !a.is_completed && a.completed_date == none)) = true) :
    (((days.foldl (expandStep db_blocks db_asgs obj wd last) acc).2.all
      (fun a => !a.is_completed && a.completed_date == none)) = true) := by
  induction days generalizing acc with
  | nil => exact hacc
  | cons day rest ih =>
    apply ih
    unfold expandStep
    split
    · split
      · exact hacc
      · simp only [List.all_append, hacc, Bool.true_and, List.all_map]
        apply List.all_eq_true.mpr
        intro a _
        rfl
    · exact hacc

/-- Bounds and stride of `pyRange7` members. -/
theorem pyRange7_mem {a b day : Nat} (h : day ∈ pyRange7 a b) :
    a ≤ day ∧ day < b ∧ ∃ k, day = a + 7 * k := by
  unfold pyRange7 at h
  obtain ⟨i, hi, rfl⟩ := List.mem_map.mp h
  have hir := List.mem_range.mp hi
  refine ⟨by omega, by omega, ⟨i, rfl⟩⟩

/-- `pyRange7` is strictly increasing. -/
theorem pyRange7_pairwise (a b : Nat) :
    (pyRange7 a b).Pairwise (· < ·) := by
  unfold pyRange7
  exact (List.pairwise_map).mpr
    ((List.pairwise_lt_range _).imp (fun h => by omega))

/-- Appending blocks whose day differs from `day` does not change the
existence check for `day`. -/
theorem existsMatch_append (db extra : List WorkBlock) (obj : WorkBlock)
    (day : Nat) (h : ∀ b ∈ extra, b.day_of_month ≠ day) :
    existsMatch (db ++ extra) obj day = existsMatch db obj day := by
  unfold existsMatch
  rw [List.any_append]
  have hextra : extra.any (matchesTemplate obj day) = false := by
    rw [List.any_eq_false]
    intro b hb
    have hd : (b.day_of_month == day) = false :=
      beq_eq_false_iff_ne.mpr (h b hb)
    simp [matchesTemplate, hd]
  rw [hextra, Bool.or_false]

/-- Characterization of the expansion loop: starting from an accumulator
whose blocks never collide with a remaining candidate day, the loop appends
exactly one cloned block per candidate day without a pre-existing match,
together with the clones of the template's assignments. -/
theorem expand_fold_char (db_blocks : List WorkBlock)
    (db_asgs : List EmployeeWorkAssignment) (obj : WorkBlock)
    (wd last : Nat)
    (hwd : (pyWeekday obj.year obj.month obj.day_of_month == wd) = true)
    (days : List Nat) :
    ∀ (accB : List WorkBlock) (accA : List EmployeeWorkAssignment),
    days.Pairwise (· < ·) →
    (∀ day ∈ days, day ≤ last) →
    (∀ day ∈ days, ∀ b ∈ accB, b.day_of_month ≠ day) →
    days.foldl (expandStep db_blocks db_asgs obj wd last) (accB, accA) =
      (accB ++ ((days.filter (fun day => !existsMatch db_blocks obj day)).map
          (cloneBlock obj)),
       accA ++ (((days.filter (fun day => !existsMatch db_blocks obj day)).map
          (fun day => (templateAssignments db_asgs obj).map
            (fun a => cloneAssignment a (cloneBlock obj day)))).flatten)) := by
  induction days with
  | nil => intro accB accA _ _ _; simp
  | cons day rest ih =>
    intro accB accA hpw hle hacc
    have hpw' := (List.pairwise_cons.mp hpw)
    have hle0 : day ≤ last := hle day (List.mem_cons_self day rest)
    have hcond : (pyWeekday obj.year obj.month obj.day_of_month == wd &&
        decide (day ≤ last)) = true := by
      rw [hwd, decide_eq_true hle0]
      rfl
    have hstep : expandStep db_blocks db_asgs obj wd last (accB, accA) day =
        if existsMatch (db_blocks ++ accB) obj day then (accB, accA)
        else (accB ++ [cloneBlock obj day],
          accA ++ (templateAssignments db_asgs obj).map
            (fun a => cloneAssignment a (cloneBlock obj day))) := by
      unfold expandStep
      rw [if_pos hcond]
    have hstable : existsMatch (db_blocks ++ accB) obj day =
        existsMatch db_blocks obj day :=
      existsMatch_append db_blocks accB obj day
        (fun b hb => hacc day (List.mem_cons_self day rest) b hb)
    rw [List.foldl_cons, hstep, hstable]
    cases hem : existsMatch db_blocks obj day with
    | true =>
      rw [if_pos rfl]
      have hrec := ih accB accA hpw'.2 (fun d hd => hle d (List.mem_cons_of_mem day hd))
        (fun d hd b hb => hacc d (List.mem_cons_of_mem day hd) b hb)
      rw [hrec]
      have hf : (day :: rest).filter (fun d => !existsMatch db_blocks obj d) =
          rest.filter (fun d => !existsMatch db_blocks obj d) := by
        rw [List.filter_cons]
        simp [hem]
      rw [hf]
    | false =>
      rw [if_neg (by simp)]
      have hacc' : ∀ d ∈ rest, ∀ b ∈ accB ++ [cloneBlock obj day],
          b.day_of_month ≠ d := by
        intro d hd b hb
        rcases List.mem_append.mp hb with hbl | hbr
        · exact hacc d (List.mem_cons_of_mem day hd) b hbl
        · have : b = cloneBlock obj day := List.mem_singleton.mp hbr
          subst this
          have hlt : day < d := hpw'.1 d hd
          have hday : (cloneBlock obj day).day_of_month = day := rfl
          rw [hday]
          omega
      have hrec := ih (accB ++ [cloneBlock obj day])
        (accA ++ (templateAssignments db_asgs obj).map
          (fun a => cloneAssignment a (cloneBlock obj day)))
        hpw'.2 (fun d hd => hle d (List.mem_cons_of_mem day hd)) hacc'
      rw [hrec]
      have hf : (day :: rest).filter (fun d => !existsMatch db_blocks obj d) =
          day :: rest.filter (fun d => !existsMatch db_blocks obj d) := by
        rw [List.filter_cons]
        simp [hem]
      rw [hf]
      simp [List.append_assoc]

/-- Closed form of `save_related` on a constant template: one cloned block —
with the template's assignments cloned onto it — per candidate day without a
pre-existing match. -/
theorem save_related_char (db_blocks : List WorkBlock)
    (db_asgs : List EmployeeWorkAssignment) (obj : WorkBlock)
    (hconst : obj.constant = true) :
    save_related db_blocks db_asgs obj =
      ((((pyRange7 (obj.day_of_month + 7)
            (daysInMonth obj.year obj.month + 1)).filter
          (fun day => !existsMatch db_blocks obj day)).map (cloneBlock obj)),
       ((((pyRange7 (obj.day_of_month + 7)
            (daysInMonth obj.year obj.month + 1)).filter
          (fun day => !existsMatch db_blocks obj day)).map
          (fun day => (templateAssignments db_asgs obj).map
            (fun a => cloneAssignment a (cloneBlock obj day)))).flatten)) := by
  unfold save_related
  rw [hconst]
  have h := expand_fold_char db_blocks db_asgs obj
    (pyWeekday obj.year obj.month obj.day_of_month)
    (daysInMonth obj.year obj.month)
    (beq_self_eq_true _)
    (pyRange7 (obj.day_of_month + 7) (daysInMonth obj.year obj.month + 1))
    [] []
    (pyRange7_pairwise _ _)
    (fun day hday => by
      have := (pyRange7_mem hday).2.1
      omega)
    (fun day _ b hb => absurd hb (List.not_mem_nil b))
  simpa using h

/-- C4: expanding a newly created constant template creates one block per
day of the sequence `day_of_month + 7, + 14, ...` up to the month's last
day, provided no matching block pre-exists; every candidate day falls on the
template's weekday, created blocks clone every field but `day_of_month`, and
template assignments are cloned with the same employee, duration, payment
flag and rate override. -/
theorem C4_expansion_creates_weekly_occurrences (db_blocks : List WorkBlock)
    (db_asgs : List EmployeeWorkAssignment) (obj : WorkBlock)
    (hconst : obj.constant = true)
    (hnone : ∀ day ∈ pyRange7 (obj.day_of_month + 7)
      (daysInMonth obj.year obj.month + 1),
      existsMatch db_blocks obj day = false) :
    (save_related db_blocks db_asgs obj).1 =
      (pyRange7 (obj.day_of_month + 7)
        (daysInMonth obj.year obj.month + 1)).map (cloneBlock obj) ∧
    (save_related db_blocks db_asgs obj).2 =
      ((pyRange7 (obj.day_of_month + 7)
        (daysInMonth obj.year obj.month + 1)).map
        (fun day => (templateAssignments db_asgs obj).map
          (fun a => cloneAssignment a (cloneBlock obj day)))).flatten ∧
    (∀ day ∈ pyRange7 (obj.day_of_month + 7)
      (daysInMonth obj.year obj.month + 1),
      pyWeekday obj.year obj.month day =
        pyWeekday obj.year obj.month obj.day_of_month) ∧
    (∀ day : Nat, (cloneBlock obj day).name = obj.name ∧
      (cloneBlock obj day).localization = obj.localization ∧
      (cloneBlock obj day).client = obj.client ∧
      (cloneBlock obj day).start_time = obj.start_time ∧
      (cloneBlock obj day).end_time = obj.end_time ∧
      (cloneBlock obj day).month = obj.month ∧
      (cloneBlock obj day).year = obj.year ∧
      (cloneBlock obj day).duration = obj.duration ∧
      (cloneBlock obj day).hourly_value = obj.hourly_value ∧
      (cloneBlock obj day).archived = obj.archived ∧
      (cloneBlock obj day).constant = obj.constant ∧
      (cloneBlock obj day).day_of_month = day) ∧
    (∀ (a : EmployeeWorkAssignment) (nb : WorkBlock),
      (cloneAssignment a nb).employee = a.employee ∧
      (cloneAssignment a nb).work_block = nb ∧
      (cloneAssignment a nb).duration = a.duration ∧
      (cloneAssignment a nb).receives_payment = a.receives_payment ∧
      (cloneAssignment a nb).hourly_rate_override = a.hourly_rate_override) := by
  have hchar := save_related_char db_blocks db_asgs obj hconst
  have hfilter : (pyRange7 (obj.day_of_month + 7)
      (daysInMonth obj.year obj.month + 1)).filter
      (fun day => !existsMatch db_blocks obj day) =
      pyRange7 (obj.day_of_month + 7) (daysInMonth obj.year obj.month + 1) := by
    apply List.filter_eq_self.mpr
    intro day hday
    rw [hnone day hday]
    rfl
  refine ⟨?_, ?_, ?_, ?_, ?_⟩
  · rw [hchar]
    rw [hfilter]
  · rw [hchar]
    rw [hfilter]
  · intro day hday
    obtain ⟨hge, _, k, hk⟩ := pyRange7_mem hday
    subst hk
    unfold pyWeekday ordinalDay
    omega
  · intro day
    exact ⟨rfl, rfl, rfl, rfl, rfl, rfl, rfl, rfl, rfl, rfl, rfl, rfl⟩
  · intro a nb
    exact ⟨rfl, rfl, rfl, rfl, rfl⟩

/-- Witness for C4: the day-3 template of a 31-day month expands to
occurrences exactly at days 10, 17, 24 and 31 over an empty store. -/
theorem C4_expansion_creates_weekly_occurrences_witness :
    ((save_related [] [anaAsgT] tmpl).1.map (fun b => b.day_of_month)) =
      [10, 17, 24, 31] := by
  have h := (C4_expansion_creates_weekly_occurrences [] [anaAsgT] tmpl rfl
    (by decide)).1
  simp only [h]
  decide

/-- C5: expansion is idempotent with respect to existing occurrences — a
candidate day whose matching block already exists contributes no created
block, and when every candidate day already has a match nothing at all is
created. -/
theorem C5_expansion_idempotent (db_blocks : List WorkBlock)
    (db_asgs : List EmployeeWorkAssignment) (obj : WorkBlock)
    (hconst : obj.constant = true) :
    (∀ day ∈ pyRange7 (obj.day_of_month + 7)
      (daysInMonth obj.year obj.month + 1),
      existsMatch db_blocks obj day = true →
      ∀ b ∈ (save_related db_blocks db_asgs obj).1, b.day_of_month ≠ day) ∧
    ((∀ day ∈ pyRange7 (obj.day_of_month + 7)
      (daysInMonth obj.year obj.month + 1),
      existsMatch db_blocks obj day = true) →
      save_related db_blocks db_asgs obj = ([], [])) := by
  have hchar := save_related_char db_blocks db_asgs obj hconst
  constructor
  · intro day _ hex b hb
    rw [hchar] at hb
    obtain ⟨day2, hday2, rfl⟩ := List.mem_map.mp hb
    have hmem := List.mem_filter.mp hday2
    intro hcontra
    have : day2 = day := hcontra
    subst this
    rw [hex] at hmem
    exact absurd hmem.2 (by simp)
  · intro hall
    rw [hchar]
    have hnil : (pyRange7 (obj.day_of_month + 7)
        (daysInMonth obj.year obj.month + 1)).filter
        (fun day => !existsMatch db_blocks obj day) = [] := by
      apply List.filter_eq_nil_iff.mpr
      intro day hday
      rw [hall day hday]
      simp
    rw [hnil]
    rfl

/-- Witness for C5: when all four occurrences of the day-3 template already
exist, expansion creates nothing. -/
theorem C5_expansion_idempotent_witness :
    save_related db4 [anaAsgT] tmpl = ([], []) :=
  (C5_expansion_idempotent db4 [anaAsgT] tmpl rfl).2 (by decide)

/-- C10: every assignment cloned onto an expanded occurrence starts
uncompleted — `is_completed` is false and `completed_date` is `None` — no
matter the completion state of the template's assignments. -/
theorem C10_clones_start_uncompleted (db_blocks : List WorkBlock)
    (db_asgs : List EmployeeWorkAssignment) (obj : WorkBlock) :
    ((save_related db_blocks db_asgs obj).2.all
      (fun a => !a.is_completed && a.completed_date == none)) = true := by
  unfold save_related
  split
  · exact expand_fold_all_uncompleted db_blocks db_asgs obj _ _ _ ([], []) rfl
  · rfl

/-- The pairwise overlap test is symmetric. -/
theorem blocks_overlap_symm (a b : WorkBlock) :
    blocks_overlap a b = blocks_overlap b a := by
  simp [blocks_overlap, Bool.or_comm]

/-- Unfolding of the any-member overlap test. -/
theorem overlapsAny_iff (b : WorkBlock) (g : List WorkBlock) :
    overlapsAny b g = true ↔ ∃ x ∈ g, blocks_overlap b x = true := by
  simp [overlapsAny]

/-- `addBlock` when the block overlaps no existing group. -/
theorem addBlock_eq_nil (groups : List (List WorkBlock)) (b : WorkBlock)
    (hf : groups.filter (fun g => overlapsAny b g) = []) :
    addBlock groups b = groups ++ [[b]] := by
  unfold addBlock
  rw [hf]

/-- `addBlock` when the block overlaps exactly one existing group. -/
theorem addBlock_eq_one (groups : List (List WorkBlock)) (b : WorkBlock)
    (g0 : List WorkBlock)
    (hf : groups.filter (fun g => overlapsAny b g) = [g0]) :
    addBlock groups b =
      groups.map (fun g => if overlapsAny b g then g ++ [b] else g) := by
  unfold addBlock
  rw [hf]

/-- `addBlock` when the block overlaps several existing groups. -/
theorem addBlock_eq_many (groups : List (List WorkBlock)) (b : WorkBlock)
    (g0 g1 : List WorkBlock) (t : List (List WorkBlock))
    (hf : groups.filter (fun g => overlapsAny b g) = g0 :: g1 :: t) :
    addBlock groups b =
      groups.filter (fun g => !overlapsAny b g) ++
        [b :: (g0 :: g1 :: t).reverse.flatten] := by
  unfold addBlock
  rw [hf]

/-- Every group produced by `addBlock` is either an untouched non-overlapping
old group or the merged group holding `b` and the members of every group `b`
overlaps. -/
theorem addBlock_mem_char (groups : List (List WorkBlock)) (b : WorkBlock) :
    ∀ g' ∈ addBlock groups b,
      (g' ∈ groups ∧ overlapsAny b g' = false) ∨
      (∀ x, x ∈ g' ↔ mergedMem groups b x) := by
  intro g' hg'
  rcases hf : groups.filter (fun g => overlapsAny b g) with _ | ⟨g0, _ | ⟨g1, t⟩⟩
  · rw [addBlock_eq_nil groups b hf] at hg'
    have hmiss : ∀ g ∈ groups, overlapsAny b g = false := by
      intro g hg
      have := List.filter_eq_nil_iff.mp hf g hg
      exact Bool.not_eq_true _ ▸ (by simpa using this)
    rcases List.mem_append.mp hg' with h | h
    · exact Or.inl ⟨h, hmiss g' h⟩
    · have hb : g' = [b] := List.mem_singleton.mp h
      subst hb
      refine Or.inr (fun x => ⟨fun hx => Or.inl (List.mem_singleton.mp hx), ?_⟩)
      rintro (rfl | ⟨g, hg, hov, _⟩)
      · exact List.mem_singleton.mpr rfl
      · rw [hmiss g hg] at hov
        cases hov
  · rw [addBlock_eq_one groups b g0 hf] at hg'
    have hone : ∀ h, (h ∈ groups ∧ overlapsAny b h = true) ↔ h = g0 := by
      intro h
      rw [← List.mem_filter, hf, List.mem_singleton]
    obtain ⟨g, hg, rfl⟩ := List.mem_map.mp hg'
    cases hov : overlapsAny b g with
    | false =>
      refine Or.inl ?_
      rw [if_neg (by simp [hov])]
      exact ⟨hg, hov⟩
    | true =>
      have hgg0 : g = g0 := (hone g).mp ⟨hg, hov⟩
      subst hgg0
      refine Or.inr (fun x => ?_)
      rw [if_pos rfl]
      constructor
      · intro hx
        rcases List.mem_append.mp hx with hxg | hxb
        · exact Or.inr ⟨g, hg, hov, hxg⟩
        · exact Or.inl (List.mem_singleton.mp hxb)
      · rintro (rfl | ⟨h, hh, hhov, hx⟩)
        · exact List.mem_append_right _ (List.mem_singleton.mpr rfl)
        · have : h = g := (hone h).mp ⟨hh, hhov⟩
          subst this
          exact List.mem_append_left _ hx
  · rw [addBlock_eq_many groups b g0 g1 t hf] at hg'
    rcases List.mem_append.mp hg' with h | h
    · have hm := List.mem_filter.mp h
      exact Or.inl ⟨hm.1, by simpa using hm.2⟩
    · have hb : g' = b :: (g0 :: g1 :: t).reverse.flatten :=
        List.mem_singleton.mp h
      subst hb
      refine Or.inr (fun x => ?_)
      constructor
      · intro hx
        rcases List.mem_cons.mp hx with rfl | hx2
        · exact Or.inl rfl
        · obtain ⟨h2, hh2, hx3⟩ := List.mem_flatten.mp hx2
          have hh2f : h2 ∈ groups.filter (fun g => overlapsAny b g) := by
            rw [hf]
            exact List.mem_reverse.mp hh2
          have hm := List.mem_filter.mp hh2f
          exact Or.inr ⟨h2, hm.1, hm.2, hx3⟩
      · rintro (rfl | ⟨h2, hh2, hov, hx⟩)
        · exact List.mem_cons_self _ _
        · have hh2f : h2 ∈ groups.filter (fun g => overlapsAny b g) :=
            List.mem_filter.mpr ⟨hh2, hov⟩
          rw [hf] at hh2f
          exact List.mem_cons_of_mem _
            (List.mem_flatten.mpr ⟨h2, List.mem_reverse.mpr hh2f, hx⟩)

/-- Groups not overlapping the incoming block survive `addBlock` unchanged. -/
theorem addBlock_miss_mem (groups : List (List WorkBlock)) (b : WorkBlock) :
    ∀ g ∈ groups, overlapsAny b g = false → g ∈ addBlock groups b := by
  intro g hg hov
  rcases hf : groups.filter (fun g => overlapsAny b g) with _ | ⟨g0, _ | ⟨g1, t⟩⟩
  · rw [addBlock_eq_nil groups b hf]
    exact List.mem_append_left _ hg
  · rw [addBlock_eq_one groups b g0 hf]
    refine List.mem_map.mpr ⟨g, hg, ?_⟩
    rw [if_neg (by simp [hov])]
  · rw [addBlock_eq_many groups b g0 g1 t hf]
    exact List.mem_append_left _ (List.mem_filter.mpr ⟨hg, by simp [hov]⟩)

/-- `addBlock` always yields a group whose members are exactly `b` together
with the members of the groups `b` overlaps. -/
theorem addBlock_merged_mem (groups : List (List WorkBlock)) (b : WorkBlock) :
    ∃ g' ∈ addBlock groups b, ∀ x, x ∈ g' ↔ mergedMem groups b x := by
  rcases hf : groups.filter (fun g => overlapsAny b g) with _ | ⟨g0, _ | ⟨g1, t⟩⟩
  · refine ⟨[b], ?_, ?_⟩
    · rw [addBlock_eq_nil groups b hf]
      exact List.mem_append_right _ (List.mem_singleton.mpr rfl)
    · intro x
      constructor
      · intro hx
        exact Or.inl (List.mem_singleton.mp hx)
      · rintro (rfl | ⟨g, hg, hov, _⟩)
        · exact List.mem_singleton.mpr rfl
        · have := List.filter_eq_nil_iff.mp hf g hg
          rw [hov] at this
          simp at this
  · have hg0 : g0 ∈ groups.filter (fun g => overlapsAny b g) := by
      rw [hf]
      exact List.mem_singleton.mpr rfl
    have hm := List.mem_filter.mp hg0
    have hone : ∀ h, (h ∈ groups ∧ overlapsAny b h = true) ↔ h = g0 := by
      intro h
      rw [← List.mem_filter, hf, List.mem_singleton]
    refine ⟨g0 ++ [b], ?_, ?_⟩
    · rw [addBlock_eq_one groups b g0 hf]
      refine List.mem_map.mpr ⟨g0, hm.1, ?_⟩
      rw [if_pos hm.2]
    · intro x
      constructor
      · intro hx
        rcases List.mem_append.mp hx with hxg | hxb
        · exact Or.inr ⟨g0, hm.1, hm.2, hxg⟩
        · exact Or.inl (List.mem_singleton.mp hxb)
      · rintro (rfl | ⟨h, hh, hhov, hx⟩)
        · exact List.mem_append_right _ (List.mem_singleton.mpr rfl)
        · have : h = g0 := (hone h).mp ⟨hh, hhov⟩
          subst this
          exact List.mem_append_left _ hx
  · refine ⟨b :: (g0 :: g1 :: t).reverse.flatten, ?_, ?_⟩
    · rw [addBlock_eq_many groups b g0 g1 t hf]
      exact List.mem_append_right _ (List.mem_singleton.mpr rfl)
    · intro x
      constructor
      · intro hx
        rcases List.mem_cons.mp hx with rfl | hx2
        · exact Or.inl rfl
        · obtain ⟨h2, hh2, hx3⟩ := List.mem_flatten.mp hx2
          have hh2f : h2 ∈ groups.filter (fun g => overlapsAny b g) := by
            rw [hf]
            exact List.mem_reverse.mp hh2
          have hm := List.mem_filter.mp hh2f
          exact Or.inr ⟨h2, hm.1, hm.2, hx3⟩
      · rintro (rfl | ⟨h2, hh2, hov, hx⟩)
        · exact List.mem_cons_self _ _
        · have hh2f : h2 ∈ groups.filter (fun g => overlapsAny b g) :=
            List.mem_filter.mpr ⟨hh2, hov⟩
          rw [hf] at hh2f
          exact List.mem_cons_of_mem _
            (List.mem_flatten.mpr ⟨h2, List.mem_reverse.mpr hh2f, hx⟩)

/-- Overlap paths survive extending the processed list. -/
theorem touches_path_mono (processed : List WorkBlock) (b : WorkBlock)
    {x y : WorkBlock}
    (h : Relation.ReflTransGen (touches processed) x y) :
    Relation.ReflTransGen (touches (processed ++ [b])) x y :=
  Relation.ReflTransGen.mono
    (fun _ _ huv => ⟨List.mem_append_left _ huv.1, huv.2⟩) h

/-- One step of the grouping loop preserves the cluster invariant. -/
theorem clusterInv_step (processed : List WorkBlock)
    (groups : List (List WorkBlock)) (b : WorkBlock)
    (inv : ClusterInv processed groups) :
    ClusterInv (processed ++ [b]) (addBlock groups b) := by
  have hpathTo : ∀ z, mergedMem groups b z →
      Relation.ReflTransGen (touches (processed ++ [b])) b z := by
    rintro z (rfl | ⟨g, hg, hov, hz⟩)
    · exact Relation.ReflTransGen.refl
    · obtain ⟨w, hw, hbw⟩ := (overlapsAny_iff b g).mp hov
      have hwp : w ∈ processed := (inv.mem_iff w).mp ⟨g, hg, hw⟩
      exact (Relation.ReflTransGen.single
          ⟨List.mem_append_left _ hwp, hbw⟩).trans
        (touches_path_mono processed b (inv.conn g hg w hw z hz))
  have hpathFrom : ∀ z, mergedMem groups b z →
      Relation.ReflTransGen (touches (processed ++ [b])) z b := by
    rintro z (rfl | ⟨g, hg, hov, hz⟩)
    · exact Relation.ReflTransGen.refl
    · obtain ⟨w, hw, hbw⟩ := (overlapsAny_iff b g).mp hov
      have hwb : blocks_overlap w b = true := by
        rw [blocks_overlap_symm]
        exact hbw
      exact (touches_path_mono processed b (inv.conn g hg z hz w hw)).trans
        (Relation.ReflTransGen.single
          ⟨List.mem_append_right _ (List.mem_singleton.mpr rfl), hwb⟩)
  refine ⟨?_, ?_, ?_⟩
  · intro x
    constructor
    · rintro ⟨g', hg', hx⟩
      rcases addBlock_mem_char groups b g' hg' with ⟨hgin, _⟩ | hiff
      · exact List.mem_append_left _ ((inv.mem_iff x).mp ⟨g', hgin, hx⟩)
      · rcases (hiff x).mp hx with rfl | ⟨g, hg, _, hxg⟩
        · exact List.mem_append_right _ (List.mem_singleton.mpr rfl)
        · exact List.mem_append_left _ ((inv.mem_iff x).mp ⟨g, hg, hxg⟩)
    · intro hx
      rcases List.mem_append.mp hx with hxp | hxb
      · obtain ⟨g, hg, hxg⟩ := (inv.mem_iff x).mpr hxp
        cases hov : overlapsAny b g with
        | false => exact ⟨g, addBlock_miss_mem groups b g hg hov, hxg⟩
        | true =>
          obtain ⟨g', hg', hiff⟩ := addBlock_merged_mem groups b
          exact ⟨g', hg', (hiff x).mpr (Or.inr ⟨g, hg, hov, hxg⟩)⟩
      · obtain ⟨g', hg', hiff⟩ := addBlock_merged_mem groups b
        exact ⟨g', hg', (hiff x).mpr (Or.inl (List.mem_singleton.mp hxb))⟩
  · intro g' hg' x hx y hy
    rcases addBlock_mem_char groups b g' hg' with ⟨hgin, _⟩ | hiff
    · exact touches_path_mono processed b (inv.conn g' hgin x hx y hy)
    · exact (hpathFrom x ((hiff x).mp hx)).trans (hpathTo y ((hiff y).mp hy))
  · intro g' hg' x hx y hyp hov
    rcases addBlock_mem_char groups b g' hg' with ⟨hgin, hgmiss⟩ | hiff
    · rcases List.mem_append.mp hyp with hyproc | hyb
      · exact inv.closed g' hgin x hx y hyproc hov
      · exfalso
        have hyb' : y = b := List.mem_singleton.mp hyb
        subst hyb'
        have hov' : blocks_overlap y x = true := by
          rw [blocks_overlap_symm]
          exact hov
        have : overlapsAny y g' = true := (overlapsAny_iff y g').mpr ⟨x, hx, hov'⟩
        rw [this] at hgmiss
        cases hgmiss
    · apply (hiff y).mpr
      have hxm := (hiff x).mp hx
      rcases List.mem_append.mp hyp with hyproc | hyb
      · obtain ⟨gy, hgy, hygy⟩ := (inv.mem_iff y).mpr hyproc
        rcases hxm with rfl | ⟨gx, hgx, hovx, hxgx⟩
        · exact Or.inr ⟨gy, hgy, (overlapsAny_iff x gy).mpr ⟨y, hygy, hov⟩, hygy⟩
        · exact Or.inr ⟨gx, hgx, hovx, inv.closed gx hgx x hxgx y hyproc hov⟩
      · exact Or.inl (List.mem_singleton.mp hyb)

/-- The empty state satisfies the cluster invariant. -/
theorem clusterInv_nil : ClusterInv [] [] := by
  refine ⟨by simp, by simp, by simp⟩

/-- Folding the grouping loop preserves the cluster invariant. -/
theorem clusterInv_fold (bs : List WorkBlock) :
    ∀ (processed : List WorkBlock) (groups : List (List WorkBlock)),
    ClusterInv processed groups →
    ClusterInv (processed ++ bs) (bs.foldl addBlock groups) := by
  induction bs with
  | nil =>
    intro processed groups h
    simpa using h
  | cons b t ih =>
    intro processed groups h
    have h3 := ih (processed ++ [b]) (addBlock groups b)
      (clusterInv_step processed groups b h)
    simpa [List.append_assoc] using h3

/-- The cluster invariant holds of the finished grouping. -/
theorem clusterInv_buildClusters (bs : List WorkBlock) :
    ClusterInv bs (buildClusters bs) := by
  have h := clusterInv_fold bs [] [] clusterInv_nil
  simpa [buildClusters] using h

/-- Two blocks share a cluster exactly when they are connected in the
overlap graph over the day's blocks. -/
theorem sameCluster_iff_conn (bs : List WorkBlock) (x y : WorkBlock) :
    sameCluster (buildClusters bs) x y ↔ Conn bs x y := by
  have inv := clusterInv_buildClusters bs
  constructor
  · rintro ⟨g, hg, hx, hy⟩
    exact ⟨(inv.mem_iff x).mp ⟨g, hg, hx⟩, inv.conn g hg x hx y hy⟩
  · rintro ⟨hx, hpath⟩
    obtain ⟨g, hg, hxg⟩ := (inv.mem_iff x).mpr hx
    refine ⟨g, hg, hxg, ?_⟩
    induction hpath with
    | refl => exact hxg
    | tail _ e ih => exact inv.closed g hg _ ih _ e.1 e.2

/-- Connectivity only depends on which blocks are present. -/
theorem conn_iff_of_mem_iff (s s' : List WorkBlock)
    (hmem : ∀ z : WorkBlock, z ∈ s ↔ z ∈ s') (x y : WorkBlock) :
    Conn s x y ↔ Conn s' x y := by
  constructor
  · rintro ⟨hx, hp⟩
    exact ⟨(hmem x).mp hx, Relation.ReflTransGen.mono
      (fun _ v huv => ⟨(hmem v).mp huv.1, huv.2⟩) hp⟩
  · rintro ⟨hx, hp⟩
    exact ⟨(hmem x).mpr hx, Relation.ReflTransGen.mono
      (fun _ v huv => ⟨(hmem v).mpr huv.1, huv.2⟩) hp⟩

/-- C7: the partition into overlap clusters is order-independent — running
the cluster-building loop on any permutation of a day's block list puts the
same pairs of blocks into a common cluster. -/
theorem C7_clustering_order_independent (bs bs' : List WorkBlock)
    (hperm : bs.Perm bs') (x y : WorkBlock) :
    sameCluster (buildClusters bs) x y ↔
      sameCluster (buildClusters bs') x y := by
  rw [sameCluster_iff_conn, sameCluster_iff_conn]
  exact conn_iff_of_mem_iff bs bs' (fun z => hperm.mem_iff) x y

/-- Witness for C7 on a two-block day list and its transposition. -/
theorem C7_clustering_order_independent_witness :
    sameCluster (buildClusters [cA, cB]) cA cB ↔
      sameCluster (buildClusters [cB, cA]) cA cB :=
  C7_clustering_order_independent [cA, cB] [cB, cA]
    (List.Perm.swap cB cA []) cA cB

/-- C6 (amended): the overlap predicate is symmetric and uses open
boundaries, so back-to-back blocks do not overlap and two mutually
non-overlapping blocks alone are placed in distinct clusters; but a
back-to-back pair can still share a cluster through a bridging block that
overlaps both. -/
theorem C6_overlap_boundaries_amended :
    (∀ b1 b2 : WorkBlock, blocks_overlap b1 b2 = blocks_overlap b2 b1) ∧
    (∀ b1 b2 : WorkBlock, blocks_overlap b1 b2 = true ↔
      ¬(b1.end_time ≤ b2.start_time ∨ b2.end_time ≤ b1.start_time)) ∧
    (∀ b1 b2 : WorkBlock, b1.end_time ≤ b2.start_time →
      blocks_overlap b1 b2 = false) ∧
    (∀ A B : WorkBlock, blocks_overlap A B = false →
      buildClusters [A, B] = [[A], [B]]) := by
  refine ⟨blocks_overlap_symm, ?_, ?_, ?_⟩
  · intro b1 b2
    simp [blocks_overlap]
  · intro b1 b2 h
    simp [blocks_overlap]
    intro hcon
    exact absurd h (by omega)
  · intro A B h
    have hBA : blocks_overlap B A = false := by
      rw [blocks_overlap_symm]
      exact h
    simp [buildClusters, addBlock, overlapsAny, hBA]

/-- Counterexample to C6: `cA` ends exactly when `cB` starts, yet with the
bridging block `cC` overlapping both, the layout pass groups `cA` and `cB`
into the same overlap cluster. -/
theorem C6_overlap_boundaries_counterexample :
    cA.end_time = cB.start_time ∧
    sameCluster (buildClusters (sortBlocks [cA, cB, cC])) cA cB :=
  ⟨rfl, by decide⟩

/-- Witness for C6 at the concrete back-to-back pair. -/
theorem C6_overlap_boundaries_amended_witness :
    blocks_overlap cA cB = false ∧ buildClusters [cA, cB] = [[cA], [cB]] := by
  have h1 := C6_overlap_boundaries_amended.2.2.1 cA cB (by decide)
  exact ⟨h1, C6_overlap_boundaries_amended.2.2.2 cA cB h1⟩

end Ptl
